import Mathlib

/-!
Verification of the per-device streaming client of the notification
repository: the incremental multipart demultiplexer and event/image
correlator of CameraConnection.run (src/camera_handler.py), the gate
alarm poller CameraConnection.is_gate_alarm_active, and the queue
drain CameraHandler.get_new_detections.

Byte sequences and decoded strings are both modelled as List Nat
(bytes, respectively Unicode code points).
-/

/-- Code points of a string literal (used for ASCII constants). -/
def ascii (s : String) : List Nat :=
  s.toList.map Char.toNat

/-- ASCII lower-casing, as applied by str.lower to the ASCII range.
The source only lower-cases header names before comparing them with
ASCII literals, so the non-ASCII part of str.lower is irrelevant here. -/
def pyLower (s : List Nat) : List Nat :=
  s.map (fun c => if 65 ≤ c ∧ c ≤ 90 then c + 32 else c)

/-- ASCII upper-casing (used to state what a normalized plate would be). -/
def pyUpper (s : List Nat) : List Nat :=
  s.map (fun c => if 97 ≤ c ∧ c ≤ 122 then c - 32 else c)

/-- Whitespace code points recognized by str.strip. -/
def isPySpace (c : Nat) : Bool :=
  (9 ≤ c && c ≤ 13) || (28 ≤ c && c ≤ 32) || c = 133 || c = 160 ||
  c = 5760 || (8192 ≤ c && c ≤ 8202) || c = 8232 || c = 8233 ||
  c = 8239 || c = 8287 || c = 12288

/-- str.strip: remove leading and trailing whitespace. -/
def pyStrip (s : List Nat) : List Nat :=
  ((s.dropWhile isPySpace).reverse.dropWhile isPySpace).reverse

/-- str.split on the two-character separator CR LF (non-overlapping,
left to right), as used on the decoded header block. -/
def splitCRLF : List Nat → List (List Nat)
  | [] => [[]]
  | 13 :: 10 :: rest => [] :: splitCRLF rest
  | c :: rest =>
    match splitCRLF rest with
    | l :: ls => (c :: l) :: ls
    | [] => [[c]]

/-- str.split on a single-character separator, no maxsplit. -/
def splitAllOn (sep : Nat) : List Nat → List (List Nat)
  | [] => [[]]
  | c :: rest =>
    if c = sep then [] :: splitAllOn sep rest
    else
      match splitAllOn sep rest with
      | l :: ls => (c :: l) :: ls
      | [] => [[c]]

/-- str.split with maxsplit 1: some (before, after) at the first
occurrence of the separator, none when the separator is absent. -/
def splitOnce (sep : Nat) : List Nat → Option (List Nat × List Nat)
  | [] => none
  | c :: rest =>
    if c = sep then some ([], rest)
    else (splitOnce sep rest).map (fun p => (c :: p.1, p.2))

/-- Line-boundary code points of str.splitlines (CR LF is handled as a
single boundary by pySplitlinesAux). -/
def isLineBreak (c : Nat) : Bool :=
  c = 10 || c = 11 || c = 12 || c = 13 || c = 28 || c = 29 || c = 30 ||
  c = 133 || c = 8232 || c = 8233

def pySplitlinesAux : List Nat → List Nat → List (List Nat)
  | acc, [] => if acc.isEmpty then [] else [acc.reverse]
  | acc, 13 :: 10 :: rest => acc.reverse :: pySplitlinesAux [] rest
  | acc, c :: rest =>
    if isLineBreak c then acc.reverse :: pySplitlinesAux [] rest
    else pySplitlinesAux (c :: acc) rest

/-- str.splitlines. -/
def pySplitlines (s : List Nat) : List (List Nat) :=
  pySplitlinesAux [] s

def isDigit (c : Nat) : Bool :=
  48 ≤ c && c ≤ 57

def digitsAux : Nat → List Nat → Option Nat
  | acc, [] => some acc
  | acc, c :: r =>
    if isDigit c then digitsAux (acc * 10 + (c - 48)) r
    else if c = 95 then
      match r with
      | d :: r2 => if isDigit d then digitsAux (acc * 10 + (d - 48)) r2 else none
      | [] => none
    else none

def digitsVal : List Nat → Option Nat
  | [] => none
  | c :: r => if isDigit c then digitsAux (c - 48) r else none

/-- int(str) for base 10: surrounding whitespace, an optional sign, then
ASCII digits with single underscores allowed between digits.  (CPython
additionally accepts non-ASCII decimal digits, which no camera header
or status response uses.) -/
def pyInt (s : List Nat) : Option Int :=
  match pyStrip s with
  | 43 :: rest => (digitsVal rest).map (fun n => (n : Int))
  | 45 :: rest => (digitsVal rest).map (fun n => -(n : Int))
  | rest => (digitsVal rest).map (fun n => (n : Int))

def isCont (b : Nat) : Bool :=
  128 ≤ b && b ≤ 191

/-- Validity of the second byte of a multi-byte sequence headed by b. -/
def utf8Second (b c : Nat) : Bool :=
  if b = 224 then 160 ≤ c && c ≤ 191
  else if b = 237 then 128 ≤ c && c ≤ 159
  else if b = 240 then 144 ≤ c && c ≤ 191
  else if b = 244 then 128 ≤ c && c ≤ 143
  else isCont c

/-- Fuel-indexed worker for utf8DecodeIgnore; each step consumes at
least one input byte, so fuel equal to the input length suffices. -/
def utf8DecodeIgnoreF : Nat → List Nat → List Nat
  | 0, _ => []
  | _, [] => []
  | fuel + 1, b :: r =>
    if b < 128 then b :: utf8DecodeIgnoreF fuel r
    else if 194 ≤ b && b ≤ 223 then
      match r with
      | c :: r2 =>
        if isCont c then ((b - 192) * 64 + (c - 128)) :: utf8DecodeIgnoreF fuel r2
        else utf8DecodeIgnoreF fuel (c :: r2)
      | [] => []
    else if 224 ≤ b && b ≤ 239 then
      match r with
      | c :: r2 =>
        if utf8Second b c then
          match r2 with
          | d :: r3 =>
            if isCont d then
              ((b - 224) * 4096 + (c - 128) * 64 + (d - 128)) :: utf8DecodeIgnoreF fuel r3
            else utf8DecodeIgnoreF fuel (d :: r3)
          | [] => []
        else utf8DecodeIgnoreF fuel (c :: r2)
      | [] => []
    else if 240 ≤ b && b ≤ 244 then
      match r with
      | c :: r2 =>
        if utf8Second b c then
          match r2 with
          | d :: r3 =>
            if isCont d then
              match r3 with
              | e :: r4 =>
                if isCont e then
                  ((b - 240) * 262144 + (c - 128) * 4096 + (d - 128) * 64 + (e - 128)) ::
                    utf8DecodeIgnoreF fuel r4
                else utf8DecodeIgnoreF fuel (e :: r4)
              | [] => []
            else utf8DecodeIgnoreF fuel (d :: r3)
          | [] => []
        else utf8DecodeIgnoreF fuel (c :: r2)
      | [] => []
    else utf8DecodeIgnoreF fuel r

/-- bytes.decode with encoding utf-8 and errors ignore: well-formed
sequences decode to their code point, and each maximal subpart of an
ill-formed sequence is skipped. -/
def utf8DecodeIgnore (s : List Nat) : List Nat :=
  utf8DecodeIgnoreF s.length s

/-- bytes.find: index of the first occurrence of pat in s, none when
absent (Python returns -1). -/
def findSub (pat : List Nat) : List Nat → Option Nat
  | [] => if pat.isEmpty then some 0 else none
  | a :: rest =>
    if pat.isPrefixOf (a :: rest) then some 0
    else (findSub pat rest).map (· + 1)

/-- bytes.find with a start offset. -/
def findFrom (pat s : List Nat) (start : Nat) : Option Nat :=
  (findSub pat (s.drop start)).map (· + start)

/-- The in-operator on strings: substring containment. -/
def containsSub (pat s : List Nat) : Bool :=
  (findSub pat s).isSome

/-- Python slice b[i:j] for a nonnegative start index i and an arbitrary
integer end index j. -/
def pySliceIJ (l : List Nat) (i : Nat) (j : Int) : List Nat :=
  let e : Int := if j < 0 then max ((l.length : Int) + j) 0 else j
  (l.drop i).take (e - (i : Int)).toNat

/-- Python slice b[k:] for an arbitrary integer k. -/
def pyDropFrom (l : List Nat) (k : Int) : List Nat :=
  if k < 0 then l.drop ((l.length : Int) + k).toNat else l.drop k.toNat

/-! ## Data model (src/camera_handler.py) -/

/-- The flat key-value mapping built by _parse_event_text_part: a Python
dict as an association list, insertion replacing in place. -/
abbrev Dict := List (List Nat × List Nat)

def dictInsert : Dict → List Nat → List Nat → Dict
  | [], k, v => [(k, v)]
  | (k1, v1) :: rest, k, v =>
    if k1 = k then (k, v) :: rest else (k1, v1) :: dictInsert rest k v

def dictGet : Dict → List Nat → Option (List Nat)
  | [], _ => none
  | (k1, v) :: rest, k => if k1 = k then some v else dictGet rest k

/-- One multipart section as extracted by the inner demultiplexing loop:
content type and content length from the part headers, and the body. -/
structure DemuxPart where
  ct : Option (List Nat)
  cl : Option Int
  body : List Nat

deriving instance DecidableEq for DemuxPart

/-- DetectionEvent as constructed in CameraConnection.run.  The
timestamp is the receipt instant in integer form: the run loop always
stamps events with datetime.now(), modelled by the now argument
threaded through the loop. -/
structure DetectionEvent where
  plate_number : List Nat
  timestamp : Int
  camera_ip : List Nat
  image_data : List Nat
  event_details : Dict

deriving instance DecidableEq for DetectionEvent

/-- CameraConnection._parse_event_text_part: newline-separated
key=value pairs, lines without an equals sign ignored, keys and values
stripped, later duplicate keys overwriting earlier ones. -/
def parse_event_text_part (text : List Nat) : Dict :=
  (pySplitlines text).foldl
    (fun d line =>
      match splitOnce 61 line with
      | some (k, v) => dictInsert d (pyStrip k) (pyStrip v)
      | none => d)
    []

/-- The per-part correlation step of CameraConnection.run
(src/camera_handler.py lines 252-271): text/plain parts update the
pending slot, image/jpeg parts pair with it, any other content type
clears it.  Returns the emitted DetectionEvents and the new pending
slot. -/
def correlate (ip : List Nat) (now : Int) (ct : Option (List Nat))
    (body : List Nat) (pend : Option Dict) : List DetectionEvent × Option Dict :=
  if ct = some (ascii (r"text/plain")) then
    let text := pyStrip (utf8DecodeIgnore body)
    if containsSub (ascii (r"Heartbeat")) text then ([], none)
    else
      let parsed := parse_event_text_part text
      if dictGet parsed (ascii (r"Events[0].EventBaseInfo.Code")) =
          some (ascii (r"TrafficJunction")) then ([], some parsed)
      else ([], none)
  else if ct = some (ascii (r"image/jpeg")) then
    match pend with
    | some d =>
      if d.isEmpty then ([], some d)
      else
        ([⟨(dictGet d (ascii (r"Events[0].TrafficCar.PlateNumber"))).getD
             (ascii (r"UNKNOWN_PLATE")), now, ip, body, d⟩], none)
    | none => ([], none)
  else ([], none)

/-- Folding the correlation step over a sequence of Parts. -/
def processParts (ip : List Nat) (now : Int) :
    List DemuxPart → Option Dict → List DetectionEvent × Option Dict
  | [], pend => ([], pend)
  | p :: ps, pend =>
    let cd := correlate ip now p.ct p.body pend
    let rest := processParts ip now ps cd.2
    (cd.1 ++ rest.1, rest.2)

/-! ## The incremental multipart demultiplexer
(inner while loop of CameraConnection.run, lines 193-275) -/

/-- Outcome of one attempt to extract a part from the buffer. -/
inductive StepRes where
  | more
  | reset
  | part (ct : Option (List Nat)) (cl : Option Int) (body newbuf : List Nat) (isBad : Bool)

deriving instance DecidableEq for StepRes

/-- The header-parsing loop of the inner loop: split the decoded header
block on CR LF, recognize Content-Type and Content-Length lines by a
case-insensitive prefix test, take the text after the first colon
stripped; a Content-Length value that int() rejects resets the parsed
length to none (as the ValueError handler does). -/
def headerState (hdrBytes : List Nat) : Option (List Nat) × Option Int :=
  (splitCRLF (utf8DecodeIgnore hdrBytes)).foldl
    (fun st line =>
      if (ascii (r"content-type:")).isPrefixOf (pyLower line) then
        match splitOnce 58 line with
        | some kv => (some (pyStrip kv.2), st.2)
        | none => st
      else if (ascii (r"content-length:")).isPrefixOf (pyLower line) then
        match splitOnce 58 line with
        | some kv => (st.1, pyInt (pyStrip kv.2))
        | none => st
      else st)
    ((none, none) : Option (List Nat) × Option Int)

/-- One iteration of the inner loop up to (not including) part
processing, for boundary marker B: find the boundary, detect the final
marker, locate the header terminator, parse Content-Type and
Content-Length, and cut out the body.  more means no progress (wait for
more data); reset means the final marker was found at the buffer start
(buffer and pending slot are discarded).  isBad records a parsed
Content-Length whose body end position bs + n is not positive: there
the Python loop either repeats forever (cut position 0) or consumes a
length-dependent slice, so such runs are flagged. -/
def step (B buf : List Nat) : StepRes :=
  match findSub B buf with
  | none => StepRes.more
  | some p =>
    if (B ++ [45, 45]).isPrefixOf buf then StepRes.reset
    else
      match findFrom [13, 10, 13, 10] buf (p + B.length + 2) with
      | none => StepRes.more
      | some eoh =>
        match headerState
            ((buf.drop (p + B.length + 2)).take (eoh - (p + B.length + 2))) with
        | (ct0, some n) =>
          if ((eoh + 4 : Nat) : Int) + n ≤ (buf.length : Int) then
            StepRes.part ct0 (some n)
              (pySliceIJ buf (eoh + 4) (((eoh + 4 : Nat) : Int) + n))
              (pyDropFrom buf (((eoh + 4 : Nat) : Int) + n))
              (decide (((eoh + 4 : Nat) : Int) + n ≤ 0))
          else StepRes.more
        | (ct0, none) =>
          match findFrom B buf (eoh + 4) with
          | some nb =>
            StepRes.part ct0 none
              ((buf.drop (eoh + 4)).take (nb - (eoh + 4))) (buf.drop nb) false
          | none => StepRes.more

/-- Result of running the inner loop (or of feeding a chunk sequence):
extracted Parts, emitted DetectionEvents, the retained buffer, the
pending correlation slot, and the bad flag (true when the run hit a
Content-Length with non-positive body end, where the Python loop
diverges or consumes length-dependent slices). -/
structure LoopRes where
  parts : List DemuxPart
  dets : List DetectionEvent
  buffer : List Nat
  pending : Option Dict
  bad : Bool

deriving instance DecidableEq for LoopRes

/-- Fuel-indexed inner loop of CameraConnection.run: extract a part,
feed it to the correlation step, stop on the final-marker check after
part processing, and otherwise continue on the shortened buffer.  Each
continuing iteration strictly shortens the buffer, so fuel
buf.length + 1 always suffices (innerLoop below). -/
def innerLoopF (B ip : List Nat) (now : Int) :
    Nat → List Nat → Option Dict → LoopRes
  | 0, buf, pend => ⟨[], [], buf, pend, true⟩
  | fuel + 1, buf, pend =>
    match step B buf with
    | StepRes.more => ⟨[], [], buf, pend, false⟩
    | StepRes.reset => ⟨[], [], [], none, false⟩
    | StepRes.part ct cl body newbuf isBad =>
      let cd := correlate ip now ct body pend
      if (B ++ [45, 45]).isPrefixOf newbuf then
        ⟨[⟨ct, cl, body⟩], cd.1, newbuf, cd.2, isBad⟩
      else if newbuf.length < buf.length then
        let r := innerLoopF B ip now fuel newbuf cd.2
        ⟨⟨ct, cl, body⟩ :: r.parts, cd.1 ++ r.dets, r.buffer, r.pending, isBad || r.bad⟩
      else ⟨[⟨ct, cl, body⟩], cd.1, newbuf, cd.2, true⟩

/-- The inner loop run to completion on a buffer. -/
def innerLoop (B ip : List Nat) (now : Int) (buf : List Nat)
    (pend : Option Dict) : LoopRes :=
  innerLoopF B ip now (buf.length + 1) buf pend

/-- One outer-loop step of CameraConnection.run: append the newly read
chunk to the retained buffer and run the inner loop. -/
def feedChunk (B ip : List Nat) (now : Int) (buf : List Nat)
    (pend : Option Dict) (chunk : List Nat) : LoopRes :=
  innerLoop B ip now (buf ++ chunk) pend

/-- Feeding a sequence of chunks through the loop, accumulating the
extracted Parts and emitted DetectionEvents. -/
def feedAll (B ip : List Nat) (now : Int) :
    List (List Nat) → List Nat → Option Dict → LoopRes
  | [], buf, pend => ⟨[], [], buf, pend, false⟩
  | c :: cs, buf, pend =>
    let r := feedChunk B ip now buf pend c
    let s := feedAll B ip now cs r.buffer r.pending
    ⟨r.parts ++ s.parts, r.dets ++ s.dets, s.buffer, s.pending, r.bad || s.bad⟩

/-- Concatenation of a chunk sequence. -/
def catAll : List (List Nat) → List Nat
  | [] => []
  | c :: cs => c ++ catAll cs

/-! ## Gate alarm poller (CameraConnection.is_gate_alarm_active,
src/camera_handler.py lines 80-152).  A poll outcome is none when the
request raised (RequestException, raise_for_status, or any other
exception) and some text when a response body was obtained; the real
time window is abstracted as the finite sequence of poll outcomes
observed during it. -/

/-- The integer read out of one poll response: strip the body, require
the result= prefix, split on equals signs and parse field 1 as an
integer.  none models a raised request, an unexpected format, or a
parse failure, each of which the source logs and treats as inactive. -/
def pollReading (resp : Option (List Nat)) : Option Int :=
  match resp with
  | none => none
  | some txt =>
    let content := pyStrip txt
    if (ascii (r"result=")).isPrefixOf content then
      match (splitAllOn 61 content).get? 1 with
      | some vs => pyInt vs
      | none => none
    else none

/-- Fuel-indexed bitwise and on Nat (fuel a + 1 suffices). -/
def natAndF : Nat → Nat → Nat → Nat
  | 0, _, _ => 0
  | f + 1, a, b =>
    if a = 0 ∨ b = 0 then 0
    else (if a % 2 = 1 ∧ b % 2 = 1 then 1 else 0) + 2 * natAndF f (a / 2) (b / 2)

/-- Fuel-indexed bitwise or on Nat (fuel a + b + 1 suffices). -/
def natOrF : Nat → Nat → Nat → Nat
  | 0, _, _ => 0
  | f + 1, a, b =>
    if a = 0 ∧ b = 0 then 0
    else (if a % 2 = 1 ∨ b % 2 = 1 then 1 else 0) + 2 * natOrF f (a / 2) (b / 2)

/-- Fuel-indexed bitwise difference on Nat: bits of a not set in b. -/
def natLdiffF : Nat → Nat → Nat → Nat
  | 0, _, _ => 0
  | f + 1, a, b =>
    if a = 0 then 0
    else (if a % 2 = 1 ∧ b % 2 = 0 then 1 else 0) + 2 * natLdiffF f (a / 2) (b / 2)

/-- The Python and-operator on arbitrary integers, with the usual
infinite two's-complement semantics for negative operands. -/
def pyAnd : Int → Int → Int
  | Int.ofNat m, Int.ofNat n => Int.ofNat (natAndF (m + 1) m n)
  | Int.ofNat m, Int.negSucc n => Int.ofNat (natLdiffF (m + 1) m n)
  | Int.negSucc m, Int.ofNat n => Int.ofNat (natLdiffF (n + 1) n m)
  | Int.negSucc m, Int.negSucc n => Int.negSucc (natOrF (m + n + 1) m n)

/-- Whether one poll observes the configured alarm bit set. -/
def pollActive (ch : Nat) (resp : Option (List Nat)) : Bool :=
  match pollReading resp with
  | some v => decide (pyAnd v ((2 : Int) ^ ch) ≠ 0)
  | none => false

/-- The polling loop: return true on the first active reading
(short-circuiting the rest of the window), false when the window ends. -/
def gateLoop (ch : Nat) : List (Option (List Nat)) → Bool
  | [] => false
  | rsp :: rest => if pollActive ch rsp then true else gateLoop ch rest

/-- CameraConnection.is_gate_alarm_active: a negative configured channel
index returns inactive with no polling; otherwise the window is polled. -/
def is_gate_alarm_active (chIdx : Int) (polls : List (Option (List Nat))) : Bool :=
  if chIdx < 0 then false else gateLoop chIdx.toNat polls

/-! ## Queue drain (CameraHandler.get_new_detections,
src/camera_handler.py lines 315-322).  The queue is abstracted as the
list of items that become available: an empty list models the initial
blocking get timing out. -/

/-- CameraHandler.get_new_detections: one blocking get (empty result on
timeout), then up to max_items - 1 non-blocking gets. -/
def get_new_detections (max_items : Int) (queue : List DetectionEvent) :
    List DetectionEvent :=
  match queue with
  | [] => []
  | d :: rest => d :: rest.take (max_items - 1).toNat

/-- Modelled from the spec: the preferred DetectionEvent timestamp
source, in milliseconds.  The spec asks for a device-reported capture
time field parsed as seconds since the epoch with millisecond
precision, falling back to the receipt instant; the device field
(Events[0].PTS, in milliseconds) is taken at integer precision here. -/
def specTimestampMs (details : Dict) (receiptMs : Int) : Int :=
  match (dictGet details (ascii (r"Events[0].PTS"))).bind pyInt with
  | some v => v
  | none => receiptMs

/-! ## Concrete inputs used by witnesses and counterexamples -/

def crlf : List Nat := [13, 10]

/-- The boundary marker for token X: the bytes of --X. -/
def bX : List Nat := [45, 45] ++ ascii (r"X")

/-- The example stream of the spec (section 8): a text part with body
Code=TrafficJunction and an image part of four bytes, closed by the
final marker. -/
def exampleStream : List Nat :=
  bX ++ crlf ++ ascii (r"Content-Type: text/plain") ++ crlf ++
    ascii (r"Content-Length: 20") ++ crlf ++ crlf ++
    ascii (r"Code=TrafficJunction") ++ crlf ++
  bX ++ crlf ++ ascii (r"Content-Type: image/jpeg") ++ crlf ++
    ascii (r"Content-Length: 4") ++ crlf ++ crlf ++
    [255, 216, 255, 217] ++ bX ++ [45, 45]

/-- The example stream with the event code under the key the correlator
actually reads, Events[0].EventBaseInfo.Code (Content-Length 44). -/
def exampleStreamAmended : List Nat :=
  bX ++ crlf ++ ascii (r"Content-Type: text/plain") ++ crlf ++
    ascii (r"Content-Length: 44") ++ crlf ++ crlf ++
    ascii (r"Events[0].EventBaseInfo.Code=TrafficJunction") ++ crlf ++
  bX ++ crlf ++ ascii (r"Content-Type: image/jpeg") ++ crlf ++
    ascii (r"Content-Length: 4") ++ crlf ++ crlf ++
    [255, 216, 255, 217] ++ bX ++ [45, 45]

/-- A stream whose bytes continue past a final marker: feeding it whole
discards everything, while feeding it byte by byte completes a part
from the bytes after the marker. -/
def finalMarkerStream : List Nat :=
  bX ++ [45, 45] ++ bX ++ crlf ++ ascii (r"Content-Length:0") ++ crlf ++ crlf

/-- A well-behaved stream without any final marker, used as the
chunk-independence witness. -/
def plainStream : List Nat :=
  bX ++ crlf ++ ascii (r"Content-Length: 3") ++ crlf ++ crlf ++ ascii (r"abc")

/-- A text body that parses to the target event code but contains the
substring Heartbeat, so the correlator clears the pending slot. -/
def heartbeatBody : List Nat :=
  ascii (r"Heartbeat=1") ++ [10] ++ ascii (r"Events[0].EventBaseInfo.Code=TrafficJunction")

/-- A text body recognized as a TrafficJunction event with a
lower-case plate value. -/
def plateBody : List Nat :=
  ascii (r"Events[0].EventBaseInfo.Code=TrafficJunction") ++ [10] ++
    ascii (r"Events[0].TrafficCar.PlateNumber=ab")

/-- A pending mapping carrying a parseable device capture time. -/
def ptsPending : Dict :=
  [(ascii (r"Events[0].EventBaseInfo.Code"), ascii (r"TrafficJunction")),
   (ascii (r"Events[0].PTS"), ascii (r"5000000"))]

/-- A placeholder detection used by the drain counterexample. -/
def someDetection : DetectionEvent :=
  ⟨ascii (r"AA123"), 0, [], [], []⟩

/-! ## Lemmas about the demultiplexer -/

theorem findSub_nil_pat (s : List Nat) : findSub [] s = some 0 := by
  cases s with
  | nil => simp [findSub]
  | cons a rest => simp [findSub, List.isPrefixOf]

theorem findSub_bound {pat l : List Nat} {i : Nat} (h : findSub pat l = some i) :
    pat <+: l.drop i ∧ i + pat.length ≤ l.length := by
  induction l generalizing i with
  | nil =>
    simp only [findSub] at h
    split at h
    · rename_i hemp
      cases h
      simp_all [List.isEmpty_iff]
    · cases h
  | cons a rest ih =>
    simp only [findSub] at h
    split at h
    · rename_i hp
      cases h
      have hpre := List.isPrefixOf_iff_prefix.mp hp
      exact ⟨by simpa using hpre, by simpa using hpre.length_le⟩
    · rename_i hp
      rcases Option.map_eq_some'.mp h with ⟨j, hj, rfl⟩
      rcases ih hj with ⟨h1, h2⟩
      refine ⟨by simpa using h1, ?_⟩
      simp only [List.length_cons]
      omega

theorem findSub_append {pat l w : List Nat} {i : Nat}
    (h : findSub pat l = some i) : findSub pat (l ++ w) = some i := by
  induction l generalizing i with
  | nil =>
    simp only [findSub] at h
    split at h
    · rename_i hemp
      cases h
      have hpe : pat = [] := by simpa [List.isEmpty_iff] using hemp
      subst hpe
      simp [findSub_nil_pat w]
    · cases h
  | cons a rest ih =>
    simp only [findSub] at h
    rw [List.cons_append]
    split at h
    · rename_i hp
      cases h
      have hp2 : pat.isPrefixOf (a :: (rest ++ w)) = true := by
        rw [List.isPrefixOf_iff_prefix]
        have h3 : pat <+: (a :: rest) ++ w :=
          (List.isPrefixOf_iff_prefix.mp hp).trans (List.prefix_append _ _)
        simpa using h3
      simp [findSub, hp2]
    · rename_i hp
      rcases Option.map_eq_some'.mp h with ⟨j, hj, rfl⟩
      have hlen : pat.length ≤ rest.length := by
        have := (findSub_bound hj).2
        omega
      have hnp : ¬ pat.isPrefixOf (a :: (rest ++ w)) = true := by
        intro hc
        apply hp
        rw [List.isPrefixOf_iff_prefix] at hc ⊢
        have hbig : (a :: rest) <+: a :: (rest ++ w) := by
          have h6 := List.prefix_append (a :: rest) w
          simp only [List.cons_append] at h6
          exact h6
        exact List.prefix_of_prefix_length_le hc hbig (by simp; omega)
      simp only [findSub, if_neg hnp, ih hj]
      rfl

theorem infix_of_findSub_some {pat s : List Nat} {i : Nat}
    (h : findSub pat s = some i) : pat <:+: s :=
  ((findSub_bound h).1.isInfix).trans (List.drop_suffix i s).isInfix

theorem findSub_isSome_of_infix {pat s : List Nat} (h : pat <:+: s) :
    (findSub pat s).isSome = true := by
  rcases h with ⟨t1, t2, rfl⟩
  induction t1 with
  | nil =>
    cases pat with
    | nil => simp [findSub_nil_pat]
    | cons b pb =>
      have hp2 : (b :: pb).isPrefixOf (b :: (pb ++ t2)) = true := by
        rw [List.isPrefixOf_iff_prefix]
        have h6 := List.prefix_append (b :: pb) t2
        simp only [List.cons_append] at h6
        exact h6
      simp [findSub, hp2]
  | cons a t1 ih =>
    simp only [List.cons_append, List.append_assoc] at ih ⊢
    simp only [findSub]
    split
    · simp
    · simpa using ih

theorem not_infix_of_findSub_none {pat s : List Nat}
    (h : findSub pat s = none) : ¬ pat <:+: s := by
  intro hi
  have h2 := findSub_isSome_of_infix hi
  rw [h] at h2
  simp at h2

theorem drop_append_of_le {l w : List Nat} {a : Nat} (h : a ≤ l.length) :
    (l ++ w).drop a = l.drop a ++ w := by
  rw [List.drop_append_eq_append_drop, Nat.sub_eq_zero_of_le h, List.drop_zero]

theorem take_append_of_le {l w : List Nat} {k : Nat} (h : k ≤ l.length) :
    (l ++ w).take k = l.take k := by
  rw [List.take_append_eq_append_take, Nat.sub_eq_zero_of_le h, List.take_zero,
    List.append_nil]

theorem take_drop_append {l w : List Nat} {a k : Nat} (h : a + k ≤ l.length) :
    ((l ++ w).drop a).take k = (l.drop a).take k := by
  rw [drop_append_of_le (by omega), take_append_of_le (by simp; omega)]

theorem findFrom_bound {pat s : List Nat} {st i : Nat} (hpat : pat ≠ [])
    (h : findFrom pat s st = some i) :
    st ≤ i ∧ i + pat.length ≤ s.length ∧ pat <+: s.drop i := by
  rcases Option.map_eq_some'.mp h with ⟨j, hj, rfl⟩
  rcases findSub_bound hj with ⟨h1, h2⟩
  have hlen : (s.drop st).length = s.length - st := by simp
  have hpl : 1 ≤ pat.length := by
    cases pat with
    | nil => exact absurd rfl hpat
    | cons _ _ => simp
  have hst : st ≤ s.length := by omega
  refine ⟨by omega, by omega, ?_⟩
  rw [List.drop_drop] at h1
  have : st + j = j + st := by omega
  rw [this] at h1
  exact h1

theorem findFrom_append {pat s w : List Nat} {st i : Nat} (hpat : pat ≠ [])
    (h : findFrom pat s st = some i) : findFrom pat (s ++ w) st = some i := by
  rcases Option.map_eq_some'.mp h with ⟨j, hj, rfl⟩
  have hst : st ≤ s.length := by
    rcases findFrom_bound hpat h with ⟨_, h2, _⟩
    have hpl : 1 ≤ pat.length := by
      cases pat with
      | nil => exact absurd rfl hpat
      | cons _ _ => simp
    omega
  unfold findFrom
  rw [drop_append_of_le hst, findSub_append hj]
  rfl

theorem pySliceIJ_append {u w : List Nat} {bs : Nat} {j : Int}
    (h0 : 0 ≤ j) (h1 : j ≤ (u.length : Int)) (hbs : bs ≤ u.length) :
    pySliceIJ (u ++ w) bs j = pySliceIJ u bs j := by
  unfold pySliceIJ
  simp only [if_neg (show ¬ j < 0 by omega)]
  by_cases hk : (j - (bs : Int)).toNat = 0
  · simp [hk]
  · exact take_drop_append (by omega)

theorem pyDropFrom_append {u w : List Nat} {j : Int}
    (h0 : 0 ≤ j) (h1 : j ≤ (u.length : Int)) :
    pyDropFrom (u ++ w) j = pyDropFrom u j ++ w := by
  unfold pyDropFrom
  rw [if_neg (by omega), if_neg (by omega)]
  exact drop_append_of_le (by omega)

theorem pyDropFrom_suffix (l : List Nat) (k : Int) : pyDropFrom l k <:+ l := by
  unfold pyDropFrom
  split <;> exact List.drop_suffix _ _

theorem step_part_inv {B u : List Nat} {ct : Option (List Nat)} {cl : Option Int}
    {body v : List Nat} {bad : Bool}
    (h : step B u = StepRes.part ct cl body v bad) :
    ∃ p eoh, findSub B u = some p ∧
      ¬ (B ++ [45, 45]) <+: u ∧
      findFrom [13, 10, 13, 10] u (p + B.length + 2) = some eoh ∧
      ((∃ n, headerState ((u.drop (p + B.length + 2)).take (eoh - (p + B.length + 2)))
              = (ct, some n) ∧
          cl = some n ∧
          ((eoh + 4 : Nat) : Int) + n ≤ (u.length : Int) ∧
          body = pySliceIJ u (eoh + 4) (((eoh + 4 : Nat) : Int) + n) ∧
          v = pyDropFrom u (((eoh + 4 : Nat) : Int) + n) ∧
          bad = decide (((eoh + 4 : Nat) : Int) + n ≤ 0)) ∨
       (∃ nb, headerState ((u.drop (p + B.length + 2)).take (eoh - (p + B.length + 2)))
              = (ct, none) ∧
          cl = none ∧
          findFrom B u (eoh + 4) = some nb ∧
          body = (u.drop (eoh + 4)).take (nb - (eoh + 4)) ∧
          v = u.drop nb ∧ bad = false)) := by
  unfold step at h
  split at h
  · simp at h
  · rename_i p hfind
    split at h
    · simp at h
    · rename_i hpref
      split at h
      · simp at h
      · rename_i eoh hcr
        split at h
        · rename_i ct0 n hhs
          split at h
          · rename_i hcond
            injection h with h1 h2 h3 h4 h5
            subst h1 h2 h3 h4 h5
            exact ⟨p, eoh, hfind, by simpa using hpref, hcr,
              Or.inl ⟨n, hhs, rfl, hcond, rfl, rfl, rfl⟩⟩
          · simp at h
        · rename_i ct0 hhs
          split at h
          · rename_i nb hfB
            injection h with h1 h2 h3 h4 h5
            subst h1 h2 h3 h4 h5
            exact ⟨p, eoh, hfind, by simpa using hpref, hcr,
              Or.inr ⟨nb, hhs, rfl, hfB, rfl, rfl, rfl⟩⟩
          · simp at h

theorem step_part_suffix {B u : List Nat} {ct : Option (List Nat)} {cl : Option Int}
    {body v : List Nat} {bad : Bool}
    (h : step B u = StepRes.part ct cl body v bad) : v <:+ u := by
  rcases step_part_inv h with ⟨p, eoh, _, _, _, hcase⟩
  rcases hcase with ⟨n, _, _, _, _, hv, _⟩ | ⟨nb, _, _, _, _, hv, _⟩
  · rw [hv]
    exact pyDropFrom_suffix u _
  · rw [hv]
    exact List.drop_suffix _ _

theorem step_part_length {B u : List Nat} {ct : Option (List Nat)} {cl : Option Int}
    {body v : List Nat} (hB : B ≠ [])
    (h : step B u = StepRes.part ct cl body v false) : v.length < u.length := by
  rcases step_part_inv h with ⟨p, eoh, hfind, _, hcr, hcase⟩
  have hBl : 1 ≤ B.length := by
    cases B with
    | nil => exact absurd rfl hB
    | cons _ _ => simp
  have hul : 1 ≤ u.length := by
    have := (findSub_bound hfind).2
    omega
  rcases hcase with ⟨n, _, _, hcond, _, hv, hbad⟩ | ⟨nb, _, _, hfB, _, hv, _⟩
  · have hpos : 0 < ((eoh + 4 : Nat) : Int) + n := by
      by_contra hc
      rw [show (false = decide (((eoh + 4 : Nat) : Int) + n ≤ 0)) = _ from rfl] at hbad
      have := hbad.symm
      rw [decide_eq_false_iff_not] at this
      omega
    rw [hv]
    unfold pyDropFrom
    rw [if_neg (by omega)]
    have hk : 1 ≤ (((eoh + 4 : Nat) : Int) + n).toNat := by omega
    rw [List.length_drop]
    omega
  · have hb := findFrom_bound hB hfB
    rw [hv, List.length_drop]
    omega

theorem step_reset_inv {B u : List Nat} (h : step B u = StepRes.reset) :
    (B ++ [45, 45]) <+: u := by
  unfold step at h
  split at h
  · simp at h
  · split at h
    · rename_i hpref
      exact List.isPrefixOf_iff_prefix.mp hpref
    · split at h
      · simp at h
      · split at h
        · split at h <;> simp at h
        · split at h <;> simp at h

theorem crlf4_ne : ([13, 10, 13, 10] : List Nat) ≠ [] := by simp

theorem step_part_append {B u w : List Nat} {ct : Option (List Nat)} {cl : Option Int}
    {body v : List Nat} (hB : B ≠ [])
    (hni : ¬ (B ++ [45, 45]) <:+: (u ++ w))
    (h : step B u = StepRes.part ct cl body v false) :
    step B (u ++ w) = StepRes.part ct cl body (v ++ w) false := by
  rcases step_part_inv h with ⟨p, eoh, hfind, hpref, hcr, hcase⟩
  have hfind2 : findSub B (u ++ w) = some p := findSub_append hfind
  have hpre2 : ¬ ((B ++ [45, 45]).isPrefixOf (u ++ w)) = true := by
    intro hc
    exact hni ((List.isPrefixOf_iff_prefix.mp hc).isInfix)
  have hcr2 : findFrom [13, 10, 13, 10] (u ++ w) (p + B.length + 2) = some eoh :=
    findFrom_append crlf4_ne hcr
  rcases findFrom_bound crlf4_ne hcr with ⟨hst, hbnd, _⟩
  have hbnd4 : eoh + 4 ≤ u.length := by simpa using hbnd
  have hslice : ((u ++ w).drop (p + B.length + 2)).take (eoh - (p + B.length + 2))
      = (u.drop (p + B.length + 2)).take (eoh - (p + B.length + 2)) :=
    take_drop_append (by omega)
  unfold step
  simp only [hfind2, if_neg hpre2, hcr2, hslice]
  rcases hcase with ⟨n, hhs, hcl, hcond, hbody, hv, hbad⟩ | ⟨nb, hhs, hcl, hfB, hbody, hv, _⟩
  · have hpos : 0 < ((eoh + 4 : Nat) : Int) + n := by
      have h5 := hbad.symm
      rw [decide_eq_false_iff_not] at h5
      omega
    simp only [hhs]
    rw [if_pos (by
      rw [List.length_append]
      push_cast at hcond ⊢
      omega)]
    rw [hcl, hbody, hv]
    rw [pySliceIJ_append (by omega) (by exact_mod_cast hcond) (by omega),
      pyDropFrom_append (by omega) (by exact_mod_cast hcond)]
    simp only [StepRes.part.injEq, decide_eq_false_iff_not, true_and]
    omega
  · have hfB2 : findFrom B (u ++ w) (eoh + 4) = some nb := findFrom_append hB hfB
    rcases findFrom_bound hB hfB with ⟨hnbs, hnbe, _⟩
    have hBl : 1 ≤ B.length := by
      cases B with
      | nil => exact absurd rfl hB
      | cons _ _ => simp
    simp only [hhs, hfB2]
    rw [hcl, hbody, hv]
    rw [take_drop_append (by omega), drop_append_of_le (by omega)]

theorem step_part_append_bad {B u w : List Nat} {ct : Option (List Nat)}
    {cl : Option Int} {body v : List Nat}
    (hni : ¬ (B ++ [45, 45]) <:+: (u ++ w))
    (h : step B u = StepRes.part ct cl body v true) :
    ∃ body2 v2, step B (u ++ w) = StepRes.part ct cl body2 v2 true := by
  rcases step_part_inv h with ⟨p, eoh, hfind, hpref, hcr, hcase⟩
  have hfind2 : findSub B (u ++ w) = some p := findSub_append hfind
  have hpre2 : ¬ ((B ++ [45, 45]).isPrefixOf (u ++ w)) = true := by
    intro hc
    exact hni ((List.isPrefixOf_iff_prefix.mp hc).isInfix)
  have hcr2 : findFrom [13, 10, 13, 10] (u ++ w) (p + B.length + 2) = some eoh :=
    findFrom_append crlf4_ne hcr
  rcases findFrom_bound crlf4_ne hcr with ⟨hst, hbnd, _⟩
  have hbnd4 : eoh + 4 ≤ u.length := by simpa using hbnd
  have hslice : ((u ++ w).drop (p + B.length + 2)).take (eoh - (p + B.length + 2))
      = (u.drop (p + B.length + 2)).take (eoh - (p + B.length + 2)) :=
    take_drop_append (by omega)
  rcases hcase with ⟨n, hhs, hcl, hcond, hbody, hv, hbad⟩ | ⟨nb, hhs, hcl, hfB, hbody, hv, hbad⟩
  · refine ⟨pySliceIJ (u ++ w) (eoh + 4) (((eoh + 4 : Nat) : Int) + n),
      pyDropFrom (u ++ w) (((eoh + 4 : Nat) : Int) + n), ?_⟩
    have hneg : ((eoh + 4 : Nat) : Int) + n ≤ 0 := by
      have h5 := hbad.symm
      rw [decide_eq_true_eq] at h5
      exact h5
    unfold step
    simp only [hfind2, if_neg hpre2, hcr2, hslice, hhs]
    rw [if_pos (by
      rw [List.length_append]
      push_cast at hcond ⊢
      omega)]
    rw [hcl]
    simp only [StepRes.part.injEq, true_and]
    simp only [decide_eq_true_eq]
    omega
  · exact absurd hbad.symm (by simp)

theorem innerLoopF_fuel (B ip : List Nat) (now : Int) :
    ∀ f g buf pend, buf.length < f → buf.length < g →
      innerLoopF B ip now f buf pend = innerLoopF B ip now g buf pend := by
  intro f
  induction f with
  | zero =>
    intro g buf pend hf hg
    omega
  | succ f ih =>
    intro g buf pend hf hg
    cases g with
    | zero => omega
    | succ g =>
      simp only [innerLoopF]
      split
      · rfl
      · rfl
      · rename_i ct cl body newbuf isBad hstep
        split
        · rfl
        · split
          · rename_i hpre hlt
            rw [ih g newbuf _ (by omega) (by omega)]
          · rfl

theorem innerLoop_eq_more {B ip : List Nat} {now : Int} {buf : List Nat}
    {pend : Option Dict} (h : step B buf = StepRes.more) :
    innerLoop B ip now buf pend = ⟨[], [], buf, pend, false⟩ := by
  unfold innerLoop
  simp only [innerLoopF, h]

theorem innerLoop_eq_reset {B ip : List Nat} {now : Int} {buf : List Nat}
    {pend : Option Dict} (h : step B buf = StepRes.reset) :
    innerLoop B ip now buf pend = ⟨[], [], [], none, false⟩ := by
  unfold innerLoop
  simp only [innerLoopF, h]

theorem innerLoop_eq_part {B ip : List Nat} {now : Int} {buf : List Nat}
    {pend : Option Dict} {ct : Option (List Nat)} {cl : Option Int}
    {body v : List Nat} {bad : Bool}
    (h : step B buf = StepRes.part ct cl body v bad) :
    innerLoop B ip now buf pend =
      (if (B ++ [45, 45]).isPrefixOf v then
        ⟨[⟨ct, cl, body⟩], (correlate ip now ct body pend).1, v,
          (correlate ip now ct body pend).2, bad⟩
      else if v.length < buf.length then
        ⟨⟨ct, cl, body⟩ :: (innerLoop B ip now v (correlate ip now ct body pend).2).parts,
          (correlate ip now ct body pend).1 ++
            (innerLoop B ip now v (correlate ip now ct body pend).2).dets,
          (innerLoop B ip now v (correlate ip now ct body pend).2).buffer,
          (innerLoop B ip now v (correlate ip now ct body pend).2).pending,
          bad || (innerLoop B ip now v (correlate ip now ct body pend).2).bad⟩
      else ⟨[⟨ct, cl, body⟩], (correlate ip now ct body pend).1, v,
        (correlate ip now ct body pend).2, true⟩ : LoopRes) := by
  conv_lhs => unfold innerLoop
  conv_lhs => simp only [innerLoopF, h]
  by_cases hpre : (B ++ [45, 45]).isPrefixOf v = true
  · simp only [if_pos hpre]
  · simp only [if_neg hpre]
    by_cases hlt : v.length < buf.length
    · simp only [if_pos hlt]
      unfold innerLoop
      rw [innerLoopF_fuel B ip now buf.length (v.length + 1) v _ (by omega) (by omega)]
    · simp only [if_neg hlt]

theorem suffix_append_left {v u w : List Nat} (h : v <:+ u) : (v ++ w) <:+ (u ++ w) := by
  rcases h with ⟨t, rfl⟩
  exact ⟨t, by rw [List.append_assoc]⟩

theorem innerLoop_append (B ip : List Nat) (now : Int) (hB : B ≠ []) :
    ∀ m u w pend, u.length ≤ m →
      ¬ (B ++ [45, 45]) <:+: (u ++ w) →
      (innerLoop B ip now (u ++ w) pend).bad = false →
      (innerLoop B ip now u pend).bad = false ∧
      (innerLoop B ip now ((innerLoop B ip now u pend).buffer ++ w)
          (innerLoop B ip now u pend).pending).bad = false ∧
      (innerLoop B ip now (u ++ w) pend).parts =
        (innerLoop B ip now u pend).parts ++
          (innerLoop B ip now ((innerLoop B ip now u pend).buffer ++ w)
              (innerLoop B ip now u pend).pending).parts ∧
      (innerLoop B ip now (u ++ w) pend).dets =
        (innerLoop B ip now u pend).dets ++
          (innerLoop B ip now ((innerLoop B ip now u pend).buffer ++ w)
              (innerLoop B ip now u pend).pending).dets ∧
      (innerLoop B ip now (u ++ w) pend).buffer =
        (innerLoop B ip now ((innerLoop B ip now u pend).buffer ++ w)
            (innerLoop B ip now u pend).pending).buffer ∧
      (innerLoop B ip now (u ++ w) pend).pending =
        (innerLoop B ip now ((innerLoop B ip now u pend).buffer ++ w)
            (innerLoop B ip now u pend).pending).pending := by
  intro m
  induction m with
  | zero =>
    intro u w pend hlen hni hbad
    have hu : u = [] := List.eq_nil_of_length_eq_zero (by omega)
    subst hu
    have hstep : step B [] = StepRes.more := by
      unfold step
      have : findSub B [] = none := by
        cases B with
        | nil => exact absurd rfl hB
        | cons b bs => simp [findSub]
      rw [this]
    rw [innerLoop_eq_more hstep]
    simpa using hbad
  | succ m ih =>
    intro u w pend hlen hni hbad
    cases hstep : step B u with
    | more =>
      rw [innerLoop_eq_more hstep]
      simpa using hbad
    | reset =>
      exact absurd (((step_reset_inv hstep).trans
        (List.prefix_append u w)).isInfix) hni
    | part ct cl body v bad =>
      cases bad with
      | true =>
        rcases step_part_append_bad hni hstep with ⟨body2, v2, hstep2⟩
        rw [innerLoop_eq_part hstep2] at hbad
        revert hbad
        split
        · simp
        · split
          · simp
          · simp
      | false =>
        have hstep2 := step_part_append hB hni hstep
        have hvsuf : v <:+ u := step_part_suffix hstep
        have hvlen : v.length < u.length := step_part_length hB hstep
        have hniv : ¬ (B ++ [45, 45]) <:+: (v ++ w) := fun hc =>
          hni (hc.trans (suffix_append_left hvsuf).isInfix)
        have hpre1 : ¬ (B ++ [45, 45]).isPrefixOf v = true := by
          intro hc
          exact hni (((List.isPrefixOf_iff_prefix.mp hc).isInfix).trans
            ((hvsuf.isInfix).trans (List.prefix_append u w).isInfix))
        have hpre2 : ¬ (B ++ [45, 45]).isPrefixOf (v ++ w) = true := by
          intro hc
          exact hni (((List.isPrefixOf_iff_prefix.mp hc).isInfix).trans
            (suffix_append_left hvsuf).isInfix)
        have hvwlen : (v ++ w).length < (u ++ w).length := by
          simp only [List.length_append]
          omega
        rw [innerLoop_eq_part hstep2, if_neg hpre2, if_pos hvwlen] at hbad
        simp only [Bool.false_or] at hbad
        rcases ih v w (correlate ip now ct body pend).2 (by omega) hniv hbad
          with ⟨ih1, ih2, ihp, ihd, ihbuf, ihpend⟩
        rw [innerLoop_eq_part hstep, innerLoop_eq_part hstep2,
          if_neg hpre1, if_neg hpre2, if_pos hvlen, if_pos hvwlen]
        simp only [Bool.false_or]
        refine ⟨by simpa using ih1, ?_, ?_, ?_, ?_, ?_⟩
        · simpa using ih2
        · simp only [List.cons_append, List.append_assoc]
          rw [ihp]
        · simp only [List.append_assoc]
          rw [ihd]
        · simpa using ihbuf
        · simpa using ihpend

theorem not_infix_mono {pat x y : List Nat} (h : ¬ pat <:+: y)
    (hxy : x <:+: y) : ¬ pat <:+: x :=
  fun hc => h (hc.trans hxy)

theorem step_nil_more {B : List Nat} (hB : B ≠ []) : step B [] = StepRes.more := by
  unfold step
  have h : findSub B [] = none := by
    cases B with
    | nil => exact absurd rfl hB
    | cons b bs => simp [findSub]
  rw [h]

theorem innerLoop_buffer_suffix (B ip : List Nat) (now : Int) :
    ∀ m u pend, u.length ≤ m → (innerLoop B ip now u pend).buffer <:+ u := by
  intro m
  induction m with
  | zero =>
    intro u pend hlen
    have hu : u = [] := List.eq_nil_of_length_eq_zero (by omega)
    subst hu
    cases hstep : step B [] with
    | more => rw [innerLoop_eq_more hstep]
    | reset => rw [innerLoop_eq_reset hstep]
    | part ct cl body v bad =>
      rcases step_part_inv hstep with ⟨p, eoh, hfind, _, _, _⟩
      have := (findSub_bound hfind).2
      rcases step_part_suffix hstep with ⟨t, ht⟩
      rw [innerLoop_eq_part hstep]
      split
      · exact step_part_suffix hstep
      · split
        · rename_i hlt
          simp at hlt
        · exact step_part_suffix hstep
  | succ m ih =>
    intro u pend hlen
    cases hstep : step B u with
    | more => rw [innerLoop_eq_more hstep]
    | reset =>
      rw [innerLoop_eq_reset hstep]
      exact List.nil_suffix
    | part ct cl body v bad =>
      rw [innerLoop_eq_part hstep]
      have hvsuf := step_part_suffix hstep
      split
      · exact hvsuf
      · split
        · rename_i hlt
          exact (ih v _ (by omega)).trans hvsuf
        · exact hvsuf

theorem innerLoop_buffer_step (B ip : List Nat) (now : Int) (hB : B ≠ []) :
    ∀ m u pend, u.length ≤ m → ¬ (B ++ [45, 45]) <:+: u →
      (innerLoop B ip now u pend).bad = false →
      step B (innerLoop B ip now u pend).buffer = StepRes.more := by
  intro m
  induction m with
  | zero =>
    intro u pend hlen hni hbad
    have hu : u = [] := List.eq_nil_of_length_eq_zero (by omega)
    subst hu
    rw [innerLoop_eq_more (step_nil_more hB)]
    exact step_nil_more hB
  | succ m ih =>
    intro u pend hlen hni hbad
    cases hstep : step B u with
    | more =>
      rw [innerLoop_eq_more hstep]
      exact hstep
    | reset => exact absurd (step_reset_inv hstep).isInfix hni
    | part ct cl body v bad =>
      have hvsuf := step_part_suffix hstep
      cases bad with
      | true =>
        rw [innerLoop_eq_part hstep] at hbad
        revert hbad
        split
        · simp
        · split
          · simp
          · simp
      | false =>
        have hvlen : v.length < u.length := step_part_length hB hstep
        have hpre1 : ¬ (B ++ [45, 45]).isPrefixOf v = true := by
          intro hc
          exact hni (((List.isPrefixOf_iff_prefix.mp hc).isInfix).trans hvsuf.isInfix)
        rw [innerLoop_eq_part hstep] at hbad ⊢
        rw [if_neg hpre1, if_pos hvlen] at hbad ⊢
        simp only [Bool.false_or] at hbad
        exact ih v _ (by omega) (not_infix_mono hni hvsuf.isInfix) hbad

theorem feedAll_eq (B ip : List Nat) (now : Int) (hB : B ≠ []) :
    ∀ chunks u pend,
      ¬ (B ++ [45, 45]) <:+: (u ++ catAll chunks) →
      (innerLoop B ip now (u ++ catAll chunks) pend).bad = false →
      step B u = StepRes.more →
      (feedAll B ip now chunks u pend).parts
          = (innerLoop B ip now (u ++ catAll chunks) pend).parts ∧
      (feedAll B ip now chunks u pend).dets
          = (innerLoop B ip now (u ++ catAll chunks) pend).dets ∧
      (feedAll B ip now chunks u pend).buffer
          = (innerLoop B ip now (u ++ catAll chunks) pend).buffer ∧
      (feedAll B ip now chunks u pend).pending
          = (innerLoop B ip now (u ++ catAll chunks) pend).pending ∧
      (feedAll B ip now chunks u pend).bad = false := by
  intro chunks
  induction chunks with
  | nil =>
    intro u pend hni hbad hq
    simp only [catAll, List.append_nil] at hni hbad ⊢
    rw [innerLoop_eq_more hq]
    simp [feedAll]
  | cons c cs ih =>
    intro u pend hni hbad hq
    have hassoc : u ++ catAll (c :: cs) = (u ++ c) ++ catAll cs := by
      simp [catAll, List.append_assoc]
    rw [hassoc] at hni hbad
    rcases innerLoop_append B ip now hB (u ++ c).length (u ++ c) (catAll cs) pend
        (le_refl _) hni hbad with ⟨hb1, hb2, hp, hd, hbuf, hpend⟩
    have hniuc : ¬ (B ++ [45, 45]) <:+: (u ++ c) :=
      not_infix_mono hni (List.prefix_append _ _).isInfix
    have hqb : step B (innerLoop B ip now (u ++ c) pend).buffer = StepRes.more :=
      innerLoop_buffer_step B ip now hB (u ++ c).length (u ++ c) pend (le_refl _) hniuc hb1
    have hbsuf : (innerLoop B ip now (u ++ c) pend).buffer <:+ (u ++ c) :=
      innerLoop_buffer_suffix B ip now (u ++ c).length (u ++ c) pend (le_refl _)
    have hni2 : ¬ (B ++ [45, 45]) <:+:
        ((innerLoop B ip now (u ++ c) pend).buffer ++ catAll cs) :=
      not_infix_mono hni (suffix_append_left hbsuf).isInfix
    rcases ih (innerLoop B ip now (u ++ c) pend).buffer
        (innerLoop B ip now (u ++ c) pend).pending hni2 hb2 hqb
      with ⟨ih1, ih2, ih3, ih4, ih5⟩
    simp only [feedAll, feedChunk]
    rw [hassoc]
    refine ⟨?_, ?_, ?_, ?_, ?_⟩
    · rw [hp, ih1]
    · rw [hd, ih2]
    · rw [hbuf, ih3]
    · rw [hpend, ih4]
    · rw [hb1, ih5]
      rfl

/-! ## Claim theorems -/

theorem catAll_singletons (l : List Nat) : catAll (l.map fun b => [b]) = l := by
  induction l with
  | nil => rfl
  | cons a t iht => simp [catAll, iht]

/-- C1 (amended): chunk-size independence of the inner demultiplexing
loop holds for streams in which the final marker never occurs and no
part declares a content length whose body end is non-positive. -/
theorem c1_chunk_independence (token input ip : List Nat) (now : Int)
    (hnf : ¬ ((([45, 45] ++ token) ++ [45, 45]) <:+: input))
    (hok : (innerLoop ([45, 45] ++ token) ip now input none).bad = false) :
    (feedAll ([45, 45] ++ token) ip now (input.map fun b => [b]) [] none).parts
      = (innerLoop ([45, 45] ++ token) ip now input none).parts := by
  have hB : ([45, 45] ++ token : List Nat) ≠ [] := by simp
  have h0 : step ([45, 45] ++ token) [] = StepRes.more := step_nil_more hB
  have hmain := feedAll_eq ([45, 45] ++ token) ip now hB (input.map fun b => [b])
    [] none ?_ ?_ h0
  · rw [hmain.1]
    rw [show ([] : List Nat) ++ catAll (input.map fun b => [b]) = input by
      simp [catAll_singletons]]
  · rw [show ([] : List Nat) ++ catAll (input.map fun b => [b]) = input by
      simp [catAll_singletons]]
    exact hnf
  · rw [show ([] : List Nat) ++ catAll (input.map fun b => [b]) = input by
      simp [catAll_singletons]]
    exact hok

theorem c1_chunk_independence_witness :
    (¬ ((([45, 45] ++ ascii (r"X")) ++ [45, 45]) <:+: plainStream)) ∧
    (innerLoop ([45, 45] ++ ascii (r"X")) [] 0 plainStream none).bad = false ∧
    (feedAll ([45, 45] ++ ascii (r"X")) [] 0 (plainStream.map fun b => [b]) [] none).parts
      = (innerLoop ([45, 45] ++ ascii (r"X")) [] 0 plainStream none).parts :=
  ⟨not_infix_of_findSub_none (by decide), by decide,
    c1_chunk_independence (ascii (r"X")) plainStream [] 0
      (not_infix_of_findSub_none (by decide)) (by decide)⟩

theorem c1_counterexample :
    (feedAll bX [] 0 (finalMarkerStream.map fun b => [b]) [] none).parts
      ≠ (innerLoop bX [] 0 finalMarkerStream none).parts := by
  decide

/-- C7 (amended): when the combined buffer does not begin with the
end-of-stream marker, an incomplete header block or an unsatisfied
content length consumes nothing: no part, no event, buffer and pending
slot unchanged. -/
theorem c7_no_progress (token old chunk ip : List Nat) (now : Int) (pend : Option Dict)
    (hpre : ¬ (([45, 45] ++ token) ++ [45, 45]) <+: (old ++ chunk))
    (hcase :
      (∃ p, findSub ([45, 45] ++ token) (old ++ chunk) = some p ∧
        findFrom [13, 10, 13, 10] (old ++ chunk)
          (p + ([45, 45] ++ token).length + 2) = none) ∨
      (∃ p eoh n, findSub ([45, 45] ++ token) (old ++ chunk) = some p ∧
        findFrom [13, 10, 13, 10] (old ++ chunk)
          (p + ([45, 45] ++ token).length + 2) = some eoh ∧
        (headerState (((old ++ chunk).drop (p + ([45, 45] ++ token).length + 2)).take
          (eoh - (p + ([45, 45] ++ token).length + 2)))).2 = some n ∧
        ((old ++ chunk).length : Int) < ((eoh + 4 : Nat) : Int) + n)) :
    feedChunk ([45, 45] ++ token) ip now old pend chunk
      = ⟨[], [], old ++ chunk, pend, false⟩ := by
  have hpre2 : ¬ ((([45, 45] ++ token) ++ [45, 45]).isPrefixOf (old ++ chunk)) = true := by
    intro hc
    exact hpre (List.isPrefixOf_iff_prefix.mp hc)
  have hstep : step ([45, 45] ++ token) (old ++ chunk) = StepRes.more := by
    rcases hcase with ⟨p, hp, hcr⟩ | ⟨p, eoh, n, hp, hcr, hhs, hlt⟩
    · unfold step
      simp only [hp, if_neg hpre2, hcr]
    · unfold step
      rcases hhp : headerState (((old ++ chunk).drop (p + ([45, 45] ++ token).length + 2)).take
          (eoh - (p + ([45, 45] ++ token).length + 2))) with ⟨ct0, cl0⟩
      rw [hhp] at hhs
      simp only at hhs
      subst hhs
      simp only [hp, if_neg hpre2, hcr, hhp]
      rw [if_neg (by omega)]
  exact innerLoop_eq_more hstep

theorem c7_no_progress_witness :
    (¬ ((([45, 45] ++ ascii (r"X")) ++ [45, 45]) <+:
        (([] : List Nat) ++ (bX ++ crlf ++ ascii (r"Content-Type: text/plain") ++ crlf)))) ∧
    (∃ p, findSub ([45, 45] ++ ascii (r"X"))
        (([] : List Nat) ++ (bX ++ crlf ++ ascii (r"Content-Type: text/plain") ++ crlf)) = some p ∧
      findFrom [13, 10, 13, 10]
        (([] : List Nat) ++ (bX ++ crlf ++ ascii (r"Content-Type: text/plain") ++ crlf))
        (p + ([45, 45] ++ ascii (r"X")).length + 2) = none) ∧
    feedChunk ([45, 45] ++ ascii (r"X")) [] 0 []
        none (bX ++ crlf ++ ascii (r"Content-Type: text/plain") ++ crlf)
      = ⟨[], [], ([] : List Nat) ++ (bX ++ crlf ++ ascii (r"Content-Type: text/plain") ++ crlf),
          none, false⟩ :=
  ⟨by decide, ⟨0, by decide, by decide⟩,
    c7_no_progress (ascii (r"X")) [] (bX ++ crlf ++ ascii (r"Content-Type: text/plain") ++ crlf)
      [] 0 none (by decide) (Or.inl ⟨0, by decide, by decide⟩)⟩

theorem c7_counterexample :
    findSub bX (ascii (r"--X--")) = some 0 ∧
    findFrom [13, 10, 13, 10] (ascii (r"--X--")) (0 + bX.length + 2) = none ∧
    (feedChunk bX [] 0 [] none (ascii (r"--X--"))).parts = [] ∧
    (feedChunk bX [] 0 [] none (ascii (r"--X--"))).buffer
      ≠ ([] : List Nat) ++ ascii (r"--X--") := by
  decide

set_option maxRecDepth 8000 in
theorem c2_counterexample :
    (innerLoop bX [] 0 exampleStream none).dets = [] ∧
    (innerLoop bX [] 0 exampleStream none).parts.length = 2 := by
  decide

set_option maxRecDepth 8000 in
/-- C2 (amended): with the event code under the key the correlator
reads, the example stream produces exactly one DetectionEvent carrying
the TrafficJunction code and the four-byte image. -/
theorem c2_amended_example :
    (innerLoop bX [] 7 exampleStreamAmended none).dets.length = 1 ∧
    ((innerLoop bX [] 7 exampleStreamAmended none).dets.map fun d =>
      dictGet d.event_details (ascii (r"Events[0].EventBaseInfo.Code")))
      = [some (ascii (r"TrafficJunction"))] ∧
    ((innerLoop bX [] 7 exampleStreamAmended none).dets.map fun d =>
      d.image_data.length) = [4] := by
  decide

/-- C3 (amended): every DetectionEvent the correlation step constructs
is stamped with the receipt instant, never with a device-reported time. -/
theorem c3_timestamp_is_receipt (ip : List Nat) (now : Int)
    (ct : Option (List Nat)) (body : List Nat) (pend : Option Dict)
    (d : DetectionEvent) (hd : d ∈ (correlate ip now ct body pend).1) :
    d.timestamp = now := by
  unfold correlate at hd
  revert hd
  dsimp only
  split
  · split
    · simp
    · split
      · simp
      · simp
  · split
    · split
      · split
        · simp
        · intro hd
          rw [List.mem_singleton] at hd
          subst hd
          rfl
      · simp
    · simp

theorem c3_timestamp_is_receipt_witness :
    (⟨ascii (r"UNKNOWN_PLATE"), 55, [], [9],
        [(ascii (r"k"), ascii (r"v"))]⟩ : DetectionEvent) ∈
      (correlate [] 55 (some (ascii (r"image/jpeg"))) [9]
        (some [(ascii (r"k"), ascii (r"v"))])).1 ∧
    (⟨ascii (r"UNKNOWN_PLATE"), 55, [], [9],
        [(ascii (r"k"), ascii (r"v"))]⟩ : DetectionEvent).timestamp = 55 :=
  ⟨by decide, c3_timestamp_is_receipt [] 55 (some (ascii (r"image/jpeg"))) [9]
    (some [(ascii (r"k"), ascii (r"v"))]) _ (by decide)⟩

theorem c3_counterexample :
    ((correlate [] 123 (some (ascii (r"image/jpeg"))) [1, 2, 3]
        (some ptsPending)).1.map DetectionEvent.timestamp) = [123] ∧
    (dictGet ptsPending (ascii (r"Events[0].PTS"))).bind pyInt = some 5000000 ∧
    specTimestampMs ptsPending 123 = 5000000 ∧
    (123 : Int) ≠ 5000000 := by
  decide

theorem correlate_image_pending (ip : List Nat) (now : Int) (body : List Nat)
    (d : Dict) (hne : d ≠ []) :
    correlate ip now (some (ascii (r"image/jpeg"))) body (some d)
      = ([⟨(dictGet d (ascii (r"Events[0].TrafficCar.PlateNumber"))).getD
            (ascii (r"UNKNOWN_PLATE")), now, ip, body, d⟩], none) := by
  unfold correlate
  rw [if_neg (by decide), if_pos rfl]
  have hemp : d.isEmpty = false := by
    cases d with
    | nil => exact absurd rfl hne
    | cons _ _ => rfl
  simp [hemp]

/-- C4 (amended): the plate is taken verbatim from the vehicle plate
field with the literal default UNKNOWN_PLATE; no upper-casing and no
fallback to a generic detected-text field happens. -/
theorem c4_plate_verbatim (ip : List Nat) (now : Int) (body : List Nat)
    (d : Dict) (hne : d ≠ []) :
    correlate ip now (some (ascii (r"image/jpeg"))) body (some d)
      = ([⟨(dictGet d (ascii (r"Events[0].TrafficCar.PlateNumber"))).getD
            (ascii (r"UNKNOWN_PLATE")), now, ip, body, d⟩], none) :=
  correlate_image_pending ip now body d hne

theorem c4_plate_verbatim_witness :
    ([(ascii (r"x"), ascii (r"y"))] : Dict) ≠ [] ∧
    correlate [] 3 (some (ascii (r"image/jpeg"))) [8]
        (some [(ascii (r"x"), ascii (r"y"))])
      = ([⟨(dictGet [(ascii (r"x"), ascii (r"y"))]
            (ascii (r"Events[0].TrafficCar.PlateNumber"))).getD
            (ascii (r"UNKNOWN_PLATE")), 3, [], [8],
          [(ascii (r"x"), ascii (r"y"))]⟩], none) :=
  ⟨by decide, c4_plate_verbatim [] 3 [8] [(ascii (r"x"), ascii (r"y"))] (by decide)⟩

theorem c4_counterexample :
    ((processParts [] 0
        [⟨some (ascii (r"text/plain")), none, plateBody⟩,
         ⟨some (ascii (r"image/jpeg")), none, [9, 9]⟩] none).1.map
      DetectionEvent.plate_number) = [ascii (r"ab")] ∧
    pyUpper (ascii (r"ab")) ≠ ascii (r"ab") := by
  decide

theorem dictGet_some_not_empty {d : Dict} {k v : List Nat}
    (h : dictGet d k = some v) : d.isEmpty = false := by
  cases d with
  | nil => simp [dictGet] at h
  | cons _ _ => rfl

/-- C5 (amended): two recognized text parts, neither containing the
Heartbeat substring, followed by an image part yield exactly one
DetectionEvent correlated to the second text part, with an empty
pending slot afterwards. -/
theorem c5_two_texts_one_image (ip : List Nat) (now : Int) (pend0 : Option Dict)
    (cl1 cl2 cl3 : Option Int) (b1 b2 img : List Nat)
    (h1 : dictGet (parse_event_text_part (pyStrip (utf8DecodeIgnore b1)))
        (ascii (r"Events[0].EventBaseInfo.Code")) = some (ascii (r"TrafficJunction")))
    (h2 : dictGet (parse_event_text_part (pyStrip (utf8DecodeIgnore b2)))
        (ascii (r"Events[0].EventBaseInfo.Code")) = some (ascii (r"TrafficJunction")))
    (h3 : containsSub (ascii (r"Heartbeat")) (pyStrip (utf8DecodeIgnore b1)) = false)
    (h4 : containsSub (ascii (r"Heartbeat")) (pyStrip (utf8DecodeIgnore b2)) = false) :
    processParts ip now
        [⟨some (ascii (r"text/plain")), cl1, b1⟩,
         ⟨some (ascii (r"text/plain")), cl2, b2⟩,
         ⟨some (ascii (r"image/jpeg")), cl3, img⟩] pend0
      = ([⟨(dictGet (parse_event_text_part (pyStrip (utf8DecodeIgnore b2)))
              (ascii (r"Events[0].TrafficCar.PlateNumber"))).getD
            (ascii (r"UNKNOWN_PLATE")), now, ip, img,
          parse_event_text_part (pyStrip (utf8DecodeIgnore b2))⟩], none) := by
  simp only [processParts]
  rw [show correlate ip now (some (ascii (r"text/plain"))) b1 pend0
      = ([], some (parse_event_text_part (pyStrip (utf8DecodeIgnore b1)))) by
    unfold correlate
    rw [if_pos rfl]
    simp only [h3, Bool.false_eq_true, if_false]
    rw [if_pos h1]]
  rw [show correlate ip now (some (ascii (r"text/plain"))) b2
        (some (parse_event_text_part (pyStrip (utf8DecodeIgnore b1))))
      = ([], some (parse_event_text_part (pyStrip (utf8DecodeIgnore b2)))) by
    unfold correlate
    rw [if_pos rfl]
    simp only [h4, Bool.false_eq_true, if_false]
    rw [if_pos h2]]
  rw [correlate_image_pending ip now img (parse_event_text_part (pyStrip (utf8DecodeIgnore b2)))
    (by
      intro hc
      rw [hc] at h2
      simp [dictGet] at h2)]
  simp

theorem c5_two_texts_one_image_witness :
    (dictGet (parse_event_text_part (pyStrip (utf8DecodeIgnore
        (ascii (r"Events[0].EventBaseInfo.Code=TrafficJunction")))))
      (ascii (r"Events[0].EventBaseInfo.Code")) = some (ascii (r"TrafficJunction"))) ∧
    (containsSub (ascii (r"Heartbeat")) (pyStrip (utf8DecodeIgnore
        (ascii (r"Events[0].EventBaseInfo.Code=TrafficJunction")))) = false) ∧
    processParts [] 9
        [⟨some (ascii (r"text/plain")), none,
            ascii (r"Events[0].EventBaseInfo.Code=TrafficJunction")⟩,
         ⟨some (ascii (r"text/plain")), none,
            ascii (r"Events[0].EventBaseInfo.Code=TrafficJunction")⟩,
         ⟨some (ascii (r"image/jpeg")), none, [1, 2]⟩] none
      = ([⟨(dictGet (parse_event_text_part (pyStrip (utf8DecodeIgnore
              (ascii (r"Events[0].EventBaseInfo.Code=TrafficJunction")))))
              (ascii (r"Events[0].TrafficCar.PlateNumber"))).getD
            (ascii (r"UNKNOWN_PLATE")), 9, [], [1, 2],
          parse_event_text_part (pyStrip (utf8DecodeIgnore
            (ascii (r"Events[0].EventBaseInfo.Code=TrafficJunction"))))⟩], none) :=
  ⟨by decide, by decide,
    c5_two_texts_one_image [] 9 none none none none _ _ _
      (by decide) (by decide) (by decide) (by decide)⟩

theorem c5_counterexample :
    (dictGet (parse_event_text_part (pyStrip (utf8DecodeIgnore heartbeatBody)))
      (ascii (r"Events[0].EventBaseInfo.Code")) = some (ascii (r"TrafficJunction"))) ∧
    (processParts [] 0
        [⟨some (ascii (r"text/plain")), none, heartbeatBody⟩,
         ⟨some (ascii (r"text/plain")), none, heartbeatBody⟩,
         ⟨some (ascii (r"image/jpeg")), none, [1, 2, 3]⟩] none).1 = [] := by
  decide

/-- C6: an image part arriving with an empty pending slot produces no
DetectionEvent and processing of the remaining parts is unaffected. -/
theorem c6_unmatched_image_dropped (ip : List Nat) (now : Int) (cl : Option Int)
    (body : List Nat) (rest : List DemuxPart) :
    processParts ip now (⟨some (ascii (r"image/jpeg")), cl, body⟩ :: rest) none
      = processParts ip now rest none := by
  simp only [processParts]
  rw [show correlate ip now (some (ascii (r"image/jpeg"))) body none = ([], none) by
    unfold correlate
    rw [if_neg (by decide), if_pos rfl]]
  simp

/-- C10: a text part whose decoded, stripped body contains the
substring Heartbeat clears the pending slot and stores nothing, no
matter what the parsed mapping contains. -/
theorem c10_heartbeat_clears (ip : List Nat) (now : Int) (body : List Nat)
    (pend : Option Dict)
    (h : containsSub (ascii (r"Heartbeat")) (pyStrip (utf8DecodeIgnore body)) = true) :
    correlate ip now (some (ascii (r"text/plain"))) body pend = ([], none) := by
  unfold correlate
  rw [if_pos rfl]
  simp only [h, if_true]

theorem c10_heartbeat_clears_witness :
    (containsSub (ascii (r"Heartbeat")) (pyStrip (utf8DecodeIgnore heartbeatBody)) = true) ∧
    (dictGet (parse_event_text_part (pyStrip (utf8DecodeIgnore heartbeatBody)))
      (ascii (r"Events[0].EventBaseInfo.Code")) = some (ascii (r"TrafficJunction"))) ∧
    correlate [] 4 (some (ascii (r"text/plain"))) heartbeatBody (some ptsPending)
      = ([], none) :=
  ⟨by decide, by decide,
    c10_heartbeat_clears [] 4 heartbeatBody (some ptsPending) (by decide)⟩

theorem pollActive_iff {ch : Nat} {rsp : Option (List Nat)} :
    pollActive ch rsp = true ↔
      ∃ v, pollReading rsp = some v ∧ pyAnd v ((2 : Int) ^ ch) ≠ 0 := by
  unfold pollActive
  cases hr : pollReading rsp with
  | none => simp
  | some v => simp [hr]

/-- C8: with a configured non-negative channel, the poll window returns
active exactly when some poll reads an integer status with the
configured bit set; erroring or malformed polls read as inactive and
do not end the window. -/
theorem c8_gate_poll_iff (chIdx : Int) (polls : List (Option (List Nat)))
    (hch : 0 ≤ chIdx) :
    (is_gate_alarm_active chIdx polls = true ↔
      ∃ rsp ∈ polls, ∃ v, pollReading rsp = some v ∧
        pyAnd v ((2 : Int) ^ chIdx.toNat) ≠ 0) := by
  unfold is_gate_alarm_active
  rw [if_neg (by omega)]
  induction polls with
  | nil => simp [gateLoop]
  | cons r rs ih =>
    simp only [gateLoop]
    by_cases h : pollActive chIdx.toNat r = true
    · rw [if_pos h]
      rcases pollActive_iff.mp h with ⟨v, hv, hb⟩
      simp only [true_iff]
      exact ⟨r, List.mem_cons_self r rs, v, hv, hb⟩
    · rw [if_neg h, ih]
      constructor
      · rintro ⟨rsp, hm, v, hv, hb⟩
        exact ⟨rsp, List.mem_cons_of_mem _ hm, v, hv, hb⟩
      · rintro ⟨rsp, hm, v, hv, hb⟩
        rcases List.mem_cons.mp hm with rfl | hm2
        · exact absurd (pollActive_iff.mpr ⟨v, hv, hb⟩) h
        · exact ⟨rsp, hm2, v, hv, hb⟩

theorem c8_gate_poll_iff_witness :
    ((0 : Int) ≤ 0) ∧
    (is_gate_alarm_active 0 [none, some (ascii (r"result=3"))] = true ↔
      ∃ rsp ∈ [none, some (ascii (r"result=3"))], ∃ v, pollReading rsp = some v ∧
        pyAnd v ((2 : Int) ^ (0 : Int).toNat) ≠ 0) :=
  ⟨by decide, c8_gate_poll_iff 0 [none, some (ascii (r"result=3"))] (by decide)⟩

/-- C9 (amended): for a positive item bound the drain returns exactly
the already-available prefix of the queue, hence at most max_items
items, and the empty queue drains to the empty list. -/
theorem c9_drain_bounded (max_items : Int) (queue : List DetectionEvent)
    (h : 1 ≤ max_items) :
    get_new_detections max_items queue = queue.take max_items.toNat ∧
    (get_new_detections max_items queue).length ≤ max_items.toNat ∧
    (queue = [] → get_new_detections max_items queue = []) := by
  refine ⟨?_, ?_, ?_⟩
  · cases queue with
    | nil => simp [get_new_detections]
    | cons d rest =>
      unfold get_new_detections
      obtain ⟨k, hk⟩ : ∃ k, max_items.toNat = k + 1 := ⟨max_items.toNat - 1, by omega⟩
      rw [hk, List.take_succ_cons]
      have hk2 : (max_items - 1).toNat = k := by omega
      rw [hk2]
  · cases queue with
    | nil => simp [get_new_detections]
    | cons d rest =>
      unfold get_new_detections
      simp only [List.length_cons]
      have := List.length_take_le (max_items - 1).toNat rest
      omega
  · intro hq
    subst hq
    rfl

theorem c9_drain_bounded_witness :
    ((1 : Int) ≤ 2) ∧
    (get_new_detections 2 [someDetection] = [someDetection].take (2 : Int).toNat ∧
     (get_new_detections 2 [someDetection]).length ≤ (2 : Int).toNat ∧
     (([someDetection] : List DetectionEvent) = [] →
       get_new_detections 2 [someDetection] = [])) :=
  ⟨by decide, c9_drain_bounded 2 [someDetection] (by decide)⟩

theorem c9_counterexample :
    get_new_detections 0 [someDetection] = [someDetection] ∧
    ¬ ((get_new_detections 0 [someDetection]).length ≤ (0 : Int).toNat) := by
  decide
